import Mathlib

/-!
# Verification of `cf_pick.py`

A shallow embedding of the core of `cf_pick.py` (a Codeforces problem
picker) together with proofs about its specification.

Modelling conventions:
* Python dicts keyed by strings/ints become association lists in insertion
  order; `dict.get` is lookup of the *last* matching entry (later insertions
  overwrite earlier ones).
* Python sets used only for membership tests become lists with `∈`.
* `random.shuffle` (Mersenne-Twister Fisher-Yates, seeded through the
  module-global `random` state) is modelled as a deterministic shuffle driven
  by Lean's `StdGen`: the global generator state is an explicit argument, and
  `random.seed(seed)` replaces it by `mkStdGen seed`.  All properties proved
  here are oblivious to which permutation the shuffle produces.
* `pool.pop()` (pop from the end of a Python list) is modelled by running the
  scan over the reversed pool and reversing the remainder back.
* Exceptions become `Except`; `RuntimeError`s raised by `pick_strict_order`
  become a structured `SelectionError` carrying the rating and the constraint
  names from the message.
-/

/-!
String primitives.  The file works at the level of a string's character
list: the corresponding core functions are byte-position based and do not
reduce inside the kernel, which the concrete witnesses below need.
`Char.toLower` only lowercases ASCII letters; the Unicode table of Python's
`str.lower` is out of scope (all inputs of interest are ASCII).
-/

/-- `s.lower()`. -/
def lowerStr (s : String) : String := ⟨s.data.map Char.toLower⟩

/-- `s.lstrip()`. -/
def trimLeftStr (s : String) : String := ⟨s.data.dropWhile Char.isWhitespace⟩

/-- `s.strip()`. -/
def trimStr (s : String) : String :=
  ⟨((s.data.dropWhile Char.isWhitespace).reverse.dropWhile Char.isWhitespace).reverse⟩

/-- `s.startswith(pat)`. -/
def startsWithStr (s pat : String) : Bool := pat.data.isPrefixOf s.data

/-- A Codeforces problem as consumed by `pick_strict_order`:
`p["contestId"]`, `p["index"]`, `p["rating"]`, `p["name"]`, `p.get("tags", [])`. -/
structure Problem where
  contestId : Int
  index : String
  rating : Int
  name : String
  tags : List String
deriving DecidableEq, Repr

/-- The `(contestId, index)` key of a problem. -/
def keyOf (p : Problem) : Int × String := (p.contestId, p.index)

/-- `set(map(str.lower, cand.get("tags", [])))`: the lowercased tag set,
modelled as a duplicate-free list. -/
def tagsLower (p : Problem) : List String := (p.tags.map lowerStr).dedup

/-- Number of problems in `ps` carrying tag `t` (against lowercased tags). -/
def countTag (ps : List Problem) (t : String) : Nat :=
  (ps.filter (fun p => decide (t ∈ tagsLower p))).length

/-- Lookup in an association list with Python-dict semantics: the *last*
binding of a key wins (later insertions overwrite earlier ones). -/
def capGet (caps : List (String × Int)) (t : String) : Option Int :=
  match caps with
  | [] => none
  | (k, v) :: rest =>
    match capGet rest t with
    | some c => some c
    | none => if k = t then some v else none

/-- Line 191: `{str(k).lower(): int(v) for (k, v) in (tag_caps or {}).items()
if int(v) >= 1}`.  Keys are lowercased and entries with value `< 1` dropped;
the dict's last-one-wins semantics lives in `capGet`. -/
def sanitizeCaps (caps : List (String × Int)) : List (String × Int) :=
  (caps.filter (fun kv => decide (1 ≤ kv.2))).map (fun kv => (lowerStr kv.1, kv.2))

/-- The running selection state of `pick_strict_order`:
`used_keys`, `used_contests`, `tag_counts`. -/
structure SelState where
  usedKeys : List (Int × String)
  usedContests : List Int
  tagCounts : String → Nat

/-- Initial state: empty sets, all counts zero. -/
def initState : SelState := ⟨[], [], fun _ => 0⟩

/-- Lines 205-212, `violates_tag_rules(tags_lower)`. -/
def violates_tag_rules (distinct_tags : Bool) (caps : List (String × Int))
    (tagCounts : String → Nat) (tl : List String) : Bool :=
  (distinct_tags && tl.any (fun t => decide (1 ≤ tagCounts t))) ||
  tl.any (fun t =>
    match capGet caps t with
    | some c => decide (c ≤ (tagCounts t : Int))
    | none => false)

/-- Lines 228-232: the state update performed when a candidate is accepted. -/
def acceptState (distinct_contest : Bool) (st : SelState) (cand : Problem)
    (tl : List String) : SelState where
  usedKeys := keyOf cand :: st.usedKeys
  usedContests := if distinct_contest then cand.contestId :: st.usedContests
                  else st.usedContests
  tagCounts := fun t => if t ∈ tl then st.tagCounts t + 1 else st.tagCounts t

/-- Lines 217-233, the `while pool:` scan, run over the *reversed* pool
(`pool.pop()` pops from the end).  Returns the accepted candidate with the
updated state (or `none` on exhaustion) and the still-reversed remainder of
the pool. -/
def scanRev (distinct_contest distinct_tags : Bool) (caps : List (String × Int))
    (st : SelState) : List Problem → Option (Problem × SelState) × List Problem
  | [] => (none, [])
  | cand :: rpool =>
    if keyOf cand ∈ st.usedKeys then
      scanRev distinct_contest distinct_tags caps st rpool
    else if distinct_contest = true ∧ cand.contestId ∈ st.usedContests then
      scanRev distinct_contest distinct_tags caps st rpool
    else if violates_tag_rules distinct_tags caps st.tagCounts (tagsLower cand) = true then
      scanRev distinct_contest distinct_tags caps st rpool
    else
      (some (cand, acceptState distinct_contest st cand (tagsLower cand)), rpool)

/-- The scan over a pool in its stored order: reverse, scan, reverse back the
remainder.  The remainder is what the mutated Python list holds afterwards. -/
def scanPool (distinct_contest distinct_tags : Bool) (caps : List (String × Int))
    (st : SelState) (pool : List Problem) : Option (Problem × SelState) × List Problem :=
  let (res, rrem) := scanRev distinct_contest distinct_tags caps st pool.reverse
  (res, rrem.reverse)

/-- Remove the element at index `j`, returning it and the remaining list. -/
def extractAt : List Problem → Nat → Option (Problem × List Problem)
  | [], _ => none
  | a :: rest, 0 => some (a, rest)
  | a :: rest, n + 1 =>
    match extractAt rest n with
    | some (x, rest') => some (x, a :: rest')
    | none => none

/-- Shuffle driven by `StdGen`: repeatedly extract the element at a
pseudo-random index.  The fuel `n` is always the list length, so the
`0, l` fallback is unreachable for the actual calls. -/
def shuffleGo : Nat → StdGen → List Problem → List Problem × StdGen
  | 0, g, l => (l, g)
  | _ + 1, g, [] => ([], g)
  | n + 1, g, a :: rest =>
    let (k, g') := stdNext g
    let j := k % (a :: rest).length
    match extractAt (a :: rest) j with
    | some (x, l') =>
      let (l'', g'') := shuffleGo n g' l'
      (x :: l'', g'')
    | none => (a :: rest, g)

/-- `random.shuffle(b)`, as a pure function of the generator state. -/
def randShuffle (g : StdGen) (l : List Problem) : List Problem × StdGen :=
  shuffleGo l.length g l

/-- Lines 194-196: `buckets.setdefault(p["rating"], []).append(p)` — append
`p` to the bucket for `r`, creating it at the end in insertion order. -/
def bucketAdd (bs : List (Int × List Problem)) (r : Int) (p : Problem) :
    List (Int × List Problem) :=
  match bs with
  | [] => [(r, [p])]
  | (k, v) :: rest =>
    if k = r then (k, v ++ [p]) :: rest else (k, v) :: bucketAdd rest r p

/-- Build the rating buckets from the fresh candidates, insertion order. -/
def buildBuckets (fresh : List Problem) : List (Int × List Problem) :=
  fresh.foldl (fun bs p => bucketAdd bs p.rating p) []

/-- Lines 197-198: shuffle every bucket in iteration order, threading the
generator state through. -/
def shuffleBuckets (g : StdGen) : List (Int × List Problem) →
    List (Int × List Problem) × StdGen
  | [] => ([], g)
  | (r, pool) :: rest =>
    let (pool', g') := randShuffle g pool
    let (rest', g'') := shuffleBuckets g' rest
    ((r, pool') :: rest', g'')

/-- `buckets.get(r, [])`. -/
def bucketsGet (bs : List (Int × List Problem)) (r : Int) : List Problem :=
  match bs.find? (fun rp => decide (rp.1 = r)) with
  | some rp => rp.2
  | none => []

/-- Store the remaining pool back into the bucket for `r` (in Python the
list object is mutated in place; absent keys are untouched since their pool
is a fresh `[]`). -/
def bucketsSet (bs : List (Int × List Problem)) (r : Int) (pool : List Problem) :
    List (Int × List Problem) :=
  match bs with
  | [] => []
  | (k, v) :: rest =>
    if k = r then (k, pool) :: rest else (k, v) :: bucketsSet rest r pool

/-- Proof infrastructure: every problem stored in a bucket satisfies the
predicate `Q` indexed by the bucket's rating key. -/
def BucketsInv (Q : Int → Problem → Prop) (bs : List (Int × List Problem)) : Prop :=
  ∀ rp ∈ bs, ∀ p ∈ rp.2, Q rp.1 p

/-- The error raised on lines 234-239: the rating without an available
problem and the names of the active constraints from the message (the
rendering of the caps dict inside the message is elided). -/
structure SelectionError where
  rating : Int
  detail : List String
deriving DecidableEq, Repr

/-- Lines 235-238: the `detail` list of active-constraint names. -/
def detailList (distinct_contest distinct_tags : Bool)
    (caps : List (String × Int)) : List String :=
  (if distinct_contest then ["distinct contest"] else []) ++
  (if distinct_tags then ["no tag repetition"] else []) ++
  (if caps.isEmpty then [] else ["tag caps"])

/-- Lines 214-241: the main loop over `ratings_ordered`. -/
def pickLoop (distinct_contest distinct_tags : Bool) (caps : List (String × Int)) :
    List Int → List (Int × List Problem) → SelState → List Problem →
    Except SelectionError (List Problem)
  | [], _, _, acc => .ok acc.reverse
  | r :: rs, bs, st, acc =>
    match scanPool distinct_contest distinct_tags caps st (bucketsGet bs r) with
    | (some (chosen, st'), rest) =>
      pickLoop distinct_contest distinct_tags caps rs (bucketsSet bs r rest) st'
        (chosen :: acc)
    | (none, _) => .error ⟨r, detailList distinct_contest distinct_tags caps⟩

/-- Line 188-189: `random.seed(seed)` replaces the ambient generator state
when `seed` is not `None`; otherwise the ambient state is kept. -/
def seedGen (seed : Option Nat) (g : StdGen) : StdGen :=
  match seed with
  | some s => mkStdGen s
  | none => g

/-- Lines 178-241, `pick_strict_order`.  The ambient state of the `random`
module is the extra argument `g`; `random.seed(seed)` replaces it when
`seed` is not `None`. -/
def pick_strict_order (candidates : List Problem) (attempted_set : List (Int × String))
    (ratings_ordered : List Int) (distinct_contest distinct_tags : Bool)
    (tag_caps : List (String × Int)) (seed : Option Nat) (g : StdGen) :
    Except SelectionError (List Problem) :=
  let g0 := seedGen seed g
  let caps := sanitizeCaps tag_caps
  let fresh := candidates.filter (fun p => decide (keyOf p ∉ attempted_set))
  let (bs, _) := shuffleBuckets g0 (buildBuckets fresh)
  pickLoop distinct_contest distinct_tags caps ratings_ordered bs initState []

/-!
## The fetch layer (`cf_get`)

The HTTP transport is abstracted: an environment function assigns to every
(round index, host) pair the outcome of that attempt — a transport error
(`requests.RequestException`), or a response carrying a declared content
type, a body text, and the result of `r.json()` (`none` when the body is not
JSON, raising `json.JSONDecodeError` in Python).  Sleeps are irrelevant to
the claims and are dropped.
-/

/-- Substring test: `pat in s` on Python strings. -/
def containsSub (s pat : String) : Bool :=
  go s.toList
where
  go : List Char → Bool
  | [] => pat.toList.isPrefixOf []
  | c :: rest => pat.toList.isPrefixOf (c :: rest) || go rest

/-- Lines 48-50, `_looks_like_html`: lstrip, lowercase, then test the two
HTML prefixes (note: `"<html"`, with no closing bracket). -/
def looks_like_html (text : String) : Bool :=
  let t := lowerStr (trimLeftStr text)
  startsWithStr t "<!doctype html" || startsWithStr t "<html"

/-- The predicate as the specification words it: leading `"<!doctype html"`
or `"<html>"` (with the closing bracket) after trimming and lowercasing.
Stated only to be compared with `looks_like_html`. -/
def specLooksLikeHtml (text : String) : Bool :=
  let t := lowerStr (trimLeftStr text)
  startsWithStr t "<!doctype html" || startsWithStr t "<html>"

/-- The API envelope `{"status": ..., "result": ..., "comment": ...}`.  The
payload is abstracted to a string. -/
structure Envelope where
  status : String
  result : String
  comment : Option String
deriving DecidableEq, Repr

/-- The outcome of one HTTP attempt against one host. -/
inductive AttemptOutcome where
  | transportError (msg : String)
  | response (ctype : String) (body : String) (json : Option Envelope)
deriving DecidableEq, Repr

/-- Lines 70-72: is the envelope comment a transient failure? -/
def isTransient (comment : String) : Bool :=
  containsSub (lowerStr comment) "limit exceeded" ||
  containsSub (lowerStr comment) "service unavailable" ||
  containsSub (lowerStr comment) "please try again later"

/-- Lines 63-66: the response-validation step.  A non-JSON content type with
an HTML-looking body raises the WAF `RuntimeError`; a body that does not
parse as JSON raises `json.JSONDecodeError`; otherwise the envelope is
accepted. -/
def validateResponse (ctype body : String) (json : Option Envelope) :
    Except String Envelope :=
  if !containsSub (lowerStr ctype) "application/json" && looks_like_html body then
    .error "Non-JSON HTML from CF (likely WAF/challenge)."
  else
    match json with
    | some j => .ok j
    | none => .error "JSON decode error"

/-- What one attempt does to the control flow of `cf_get`: either return a
payload, or continue with the next host, optionally updating `last_err`
(a transient non-OK status continues *without* touching `last_err`). -/
inductive StepRes where
  | ok (payload : String)
  | next (newErr : Option String)
deriving DecidableEq, Repr

/-- Lines 61-79: processing of one attempt.  Every exception listed on line
75 — transport errors, JSON decode errors, and both `RuntimeError`s (the WAF
one from line 65 and the non-transient one from line 74) — is caught by the
`except` clause, which records it in `last_err` and continues with the next
host. -/
def processAttempt (path : String) : AttemptOutcome → StepRes
  | .transportError msg => .next (some msg)
  | .response ctype body json =>
    match validateResponse ctype body json with
    | .error e => .next (some e)
    | .ok j =>
      if j.status = "OK" then .ok j.result
      else
        let comment := trimStr (j.comment.getD "")
        if isTransient comment then .next none
        else .next (some (path ++ ": " ++ (if comment = "" then "FAILED" else comment)))

/-- Lines 59-79: one round over all hosts, threading `last_err`. -/
def runRound (path : String) (f : String → AttemptOutcome) :
    List String → Option String → Option String × Option String
  | [], lastErr => (none, lastErr)
  | host :: hosts, lastErr =>
    match processAttempt path (f host) with
    | .ok p => (some p, lastErr)
    | .next newErr =>
      runRound path f hosts (match newErr with | some e => some e | none => lastErr)

/-- Render `last_err` for the exhaustion message. -/
def showErr : Option String → String
  | some e => e
  | none => "None"

/-- Lines 52-81, `cf_get`: `retries` rounds over the host list, then the
exhaustion error.  `env round host` is the outcome of the attempt against
`host` in round `round` (0-indexed). -/
def cf_get (path : String) (hosts : List String) (retries : Nat)
    (env : Nat → String → AttemptOutcome) : Except String String :=
  go 0 retries none
where
  go (i : Nat) : Nat → Option String → Except String String
  | 0, lastErr => .error (path ++ ": exhausted retries; last error: " ++ showErr lastErr)
  | fuel + 1, lastErr =>
    match runRound path (env i) hosts lastErr with
    | (some p, _) => .ok p
    | (none, lastErr') => go (i + 1) fuel lastErr'

/-!
## Configuration loading (`load_config`)

JSON parsing and Python `isinstance` typing are abstracted: the raw
configuration arrives already typed, with `Option Int` standing for values
that may fail `int(...)` conversion (`none` = not convertible).  `float`
values are modelled as rationals (only `max` and comparisons are applied to
them, which are exact).  `die(msg, 2)` becomes a `ConfigError` with exit
code 2.
-/

/-- A fatal configuration error: message and process exit code. -/
structure ConfigError where
  msg : String
  code : Nat
deriving DecidableEq, Repr

/-- The raw configuration document, after JSON typing. -/
structure RawConfig where
  handles : List String
  ratings : List Int
  year_min : Int
  year_max : Int
  distinct_contest : Bool
  distinct_tags : Bool
  tag_caps : List (String × Option Int)
  seed : Option Int
  prefer_ipv4 : Bool
  cookie_file : Option String
  min_interval : Rat
  verbose : Bool
  timeout : Int
  page_size : Int
  api_hosts : Option (List String)
  max_pages_per_user : Option (Option Int)
  exclude_name_patterns : List String
  exclude_contest_ids : List (Option Int)

/-- The validated configuration returned by `load_config`. -/
structure Config where
  handles : List String
  ratings_list : List Int
  year_min : Int
  year_max : Int
  distinct_contest : Bool
  distinct_tags : Bool
  tag_caps : List (String × Int)
  seed : Option Int
  prefer_ipv4 : Bool
  cookie_file : Option String
  min_interval : Rat
  verbose : Bool
  timeout : Int
  page_size : Int
  api_hosts : Option (List String)
  max_pages_per_user : Option Int
  exclude_name_patterns : List String
  exclude_contest_ids : List Int

/-- Lines 292-300: validate `tag_caps` entry by entry, lowercasing keys.
`none` models a value `int(...)` cannot convert. -/
def validateTagCaps : List (String × Option Int) → Except ConfigError (List (String × Int))
  | [] => .ok []
  | (k, none) :: _ =>
    .error ⟨"Config: tag_caps[" ++ k ++ "] must be an integer >= 1.", 2⟩
  | (k, some v) :: rest =>
    if v < 1 then .error ⟨"Config: tag_caps[" ++ k ++ "] must be >= 1.", 2⟩
    else
      match validateTagCaps rest with
      | .error e => .error e
      | .ok acc => .ok ((lowerStr k, v) :: acc)

/-- Lines 302-308: validate `max_pages_per_user` when present. -/
def validateMaxPages : Option (Option Int) → Except ConfigError (Option Int)
  | none => .ok none
  | some none => .error ⟨"Config: max_pages_per_user must be an integer.", 2⟩
  | some (some v) =>
    if v < 1 then .error ⟨"Config: max_pages_per_user must be >= 1.", 2⟩
    else .ok (some v)

/-- Lines 317-320: every excluded contest id must convert to an integer. -/
def validateExcludeIds : List (Option Int) → Except ConfigError (List Int)
  | [] => .ok []
  | none :: _ => .error ⟨"Config: exclude_contest_ids must contain integers.", 2⟩
  | some v :: rest =>
    match validateExcludeIds rest with
    | .error e => .error e
    | .ok acc => .ok (v :: acc)

/-- Lines 246-341, `load_config`, at the post-JSON abstraction level:
required-field checks, `tag_caps` / `max_pages_per_user` / exclusion
validation in source order, then the normalized record — note the silent
clamping of `min_interval`, `timeout` and `page_size` on lines 333-336. -/
def load_config (cfg : RawConfig) : Except ConfigError Config :=
  if cfg.handles.isEmpty then
    .error ⟨"Config: handles must be a non-empty list.", 2⟩
  else if cfg.ratings.isEmpty then
    .error ⟨"Config: ratings must be a non-empty list of ints.", 2⟩
  else if cfg.year_min > cfg.year_max then
    .error ⟨"Config: year_min cannot be greater than year_max.", 2⟩
  else
    match validateTagCaps cfg.tag_caps with
    | .error e => .error e
    | .ok caps =>
      match validateMaxPages cfg.max_pages_per_user with
      | .error e => .error e
      | .ok mpu =>
        match validateExcludeIds cfg.exclude_contest_ids with
        | .error e => .error e
        | .ok ids =>
          .ok {
            handles := (cfg.handles.map trimStr).filter (fun h => !h.data.isEmpty)
            ratings_list := cfg.ratings
            year_min := cfg.year_min
            year_max := cfg.year_max
            distinct_contest := cfg.distinct_contest
            distinct_tags := cfg.distinct_tags
            tag_caps := caps
            seed := cfg.seed
            prefer_ipv4 := cfg.prefer_ipv4
            cookie_file := cfg.cookie_file
            min_interval := max 0 cfg.min_interval
            verbose := cfg.verbose
            timeout := max 5 cfg.timeout
            page_size := max 100 (min 1000 cfg.page_size)
            api_hosts := match cfg.api_hosts with
              | some l => if l.isEmpty then none else some l
              | none => none
            max_pages_per_user := mpu
            exclude_name_patterns :=
              (cfg.exclude_name_patterns.map trimStr).filter (fun s => !s.data.isEmpty)
            exclude_contest_ids := ids
          }

/-!
## Concrete instances used by the closed corollaries below
-/

/-- A sample problem: contest 1, index A, rating 800, tagged `dp`. -/
def wpA : Problem := ⟨1, "A", 800, "alpha", ["dp"]⟩

/-- A sample problem: contest 2, index A, rating 900, tagged `graphs`. -/
def wpB : Problem := ⟨2, "A", 900, "beta", ["graphs"]⟩

/-- A sample problem: contest 3, index B, rating 800, tagged `math`. -/
def wpC : Problem := ⟨3, "B", 800, "gamma", ["math"]⟩

/-- A scripted transport environment: in round 0 the first host answers the
API envelope `status="FAILED"`, `comment="handles: User with handle q not
found"` — a *non-transient* comment — and every other attempt succeeds. -/
def envNonTransient : Nat → String → AttemptOutcome := fun i host =>
  if i = 0 && host = "h1" then
    .response "application/json" "{...}"
      (some ⟨"FAILED", "", some "handles: User with handle q not found"⟩)
  else
    .response "application/json" "{...}" (some ⟨"OK", "PAYLOAD", none⟩)

/-- A raw configuration with every validated field in range except the three
silently-clamped networking numbers (`timeout = 3`, `min_interval = -1`,
`page_size = 50`). -/
def wcfgClamp : RawConfig where
  handles := ["alice"]
  ratings := [800]
  year_min := 2020
  year_max := 2021
  distinct_contest := false
  distinct_tags := false
  tag_caps := []
  seed := none
  prefer_ipv4 := false
  cookie_file := none
  min_interval := -1
  verbose := false
  timeout := 3
  page_size := 50
  api_hosts := none
  max_pages_per_user := none
  exclude_name_patterns := []
  exclude_contest_ids := []

/-- A raw configuration whose `tag_caps` holds an entry with value `0`. -/
def wcfgBadCap : RawConfig := { wcfgClamp with tag_caps := [("dp", some 0)] }

/-!
## Lemmas about tags, caps and the candidate scan
-/

theorem countTag_cons (p : Problem) (ps : List Problem) (t : String) :
    countTag (p :: ps) t = countTag ps t + (if t ∈ tagsLower p then 1 else 0) := by
  by_cases h : t ∈ tagsLower p <;> simp [countTag, List.filter_cons, h, Nat.add_comm]

theorem countTag_reverse (ps : List Problem) (t : String) :
    countTag ps.reverse t = countTag ps t := by
  simp [countTag, List.filter_reverse]

theorem capGet_mem {caps : List (String × Int)} {t : String} {c : Int}
    (h : capGet caps t = some c) : ∃ k, (k, c) ∈ caps := by
  induction caps with
  | nil => simp [capGet] at h
  | cons kv rest ih =>
    obtain ⟨k, v⟩ := kv
    rw [capGet] at h
    cases hr : capGet rest t with
    | some c' =>
      rw [hr] at h
      cases h
      obtain ⟨k', hk'⟩ := ih hr
      exact ⟨k', List.mem_cons_of_mem _ hk'⟩
    | none =>
      rw [hr] at h
      by_cases hk : k = t
      · rw [if_pos hk] at h
        cases h
        exact ⟨k, List.mem_cons_self _ _⟩
      · rw [if_neg hk] at h
        cases h

theorem sanitizeCaps_val_ge_one {caps : List (String × Int)} {t : String} {c : Int}
    (h : capGet (sanitizeCaps caps) t = some c) : 1 ≤ c := by
  obtain ⟨k, hk⟩ := capGet_mem h
  simp only [sanitizeCaps, List.mem_map, List.mem_filter] at hk
  obtain ⟨⟨k0, c0⟩, ⟨-, hge⟩, heq⟩ := hk
  rw [Prod.mk.injEq] at heq
  obtain ⟨-, rfl⟩ := heq
  simpa using hge

theorem violates_false_dt {dt : Bool} {caps : List (String × Int)}
    {cnt : String → Nat} {tl : List String}
    (h : violates_tag_rules dt caps cnt tl = false) (hdt : dt = true)
    {t : String} (ht : t ∈ tl) : cnt t = 0 := by
  rw [violates_tag_rules, Bool.or_eq_false_iff] at h
  have h1 := h.1
  rw [hdt, Bool.true_and, List.any_eq_false] at h1
  have := h1 t ht
  simp at this
  omega

theorem violates_false_cap {dt : Bool} {caps : List (String × Int)}
    {cnt : String → Nat} {tl : List String}
    (h : violates_tag_rules dt caps cnt tl = false)
    {t : String} (ht : t ∈ tl) {c : Int} (hc : capGet caps t = some c) :
    (cnt t : Int) < c := by
  rw [violates_tag_rules, Bool.or_eq_false_iff] at h
  have h2 := h.2
  rw [List.any_eq_false] at h2
  have := h2 t ht
  rw [hc] at this
  simpa using this

theorem scanRev_some {dc dt : Bool} {caps : List (String × Int)} {st : SelState}
    {rpool : List Problem} {c : Problem} {st' : SelState} {rrem : List Problem}
    (h : scanRev dc dt caps st rpool = (some (c, st'), rrem)) :
    c ∈ rpool ∧ rrem ⊆ rpool ∧
    st' = acceptState dc st c (tagsLower c) ∧
    keyOf c ∉ st.usedKeys ∧
    (dc = true → c.contestId ∉ st.usedContests) ∧
    violates_tag_rules dt caps st.tagCounts (tagsLower c) = false := by
  induction rpool with
  | nil => simp [scanRev] at h
  | cons cand rest ih =>
    rw [scanRev] at h
    split at h
    · obtain ⟨h1, h2, h3, h4, h5, h6⟩ := ih h
      exact ⟨List.mem_cons_of_mem _ h1, fun x hx => List.mem_cons_of_mem _ (h2 hx),
        h3, h4, h5, h6⟩
    · split at h
      · obtain ⟨h1, h2, h3, h4, h5, h6⟩ := ih h
        exact ⟨List.mem_cons_of_mem _ h1, fun x hx => List.mem_cons_of_mem _ (h2 hx),
          h3, h4, h5, h6⟩
      · split at h
        · obtain ⟨h1, h2, h3, h4, h5, h6⟩ := ih h
          exact ⟨List.mem_cons_of_mem _ h1, fun x hx => List.mem_cons_of_mem _ (h2 hx),
            h3, h4, h5, h6⟩
        · rename_i hkey hcont hvio
          rw [Prod.mk.injEq, Option.some.injEq, Prod.mk.injEq] at h
          obtain ⟨⟨h4, h5⟩, h2⟩ := h
          subst h4
          subst h5
          subst h2
          refine ⟨List.mem_cons_self _ _, fun x hx => List.mem_cons_of_mem _ hx, rfl,
            hkey, ?_, by simpa using hvio⟩
          intro hdc hmem
          exact hcont ⟨hdc, hmem⟩

theorem scanPool_some {dc dt : Bool} {caps : List (String × Int)} {st : SelState}
    {pool : List Problem} {c : Problem} {st' : SelState} {rest : List Problem}
    (h : scanPool dc dt caps st pool = (some (c, st'), rest)) :
    c ∈ pool ∧ rest ⊆ pool ∧
    st' = acceptState dc st c (tagsLower c) ∧
    keyOf c ∉ st.usedKeys ∧
    (dc = true → c.contestId ∉ st.usedContests) ∧
    violates_tag_rules dt caps st.tagCounts (tagsLower c) = false := by
  rw [scanPool] at h
  rcases hsr : scanRev dc dt caps st pool.reverse with ⟨res, rrem⟩
  rw [hsr] at h
  rw [Prod.mk.injEq] at h
  obtain ⟨h1, h2⟩ := h
  subst h1
  subst h2
  obtain ⟨h1, h2, h3, h4, h5, h6⟩ := scanRev_some hsr
  refine ⟨List.mem_reverse.mp h1, ?_, h3, h4, h5, h6⟩
  intro x hx
  exact List.mem_reverse.mp (h2 (List.mem_reverse.mp hx))

/-!
## Lemmas about bucket construction, shuffling and update
-/

theorem extractAt_mem {l : List Problem} {j : Nat} {x : Problem} {l' : List Problem}
    (h : extractAt l j = some (x, l')) : x ∈ l ∧ l' ⊆ l := by
  induction l generalizing j x l' with
  | nil => simp [extractAt] at h
  | cons a rest ih =>
    cases j with
    | zero =>
      rw [extractAt] at h
      rw [Option.some.injEq, Prod.mk.injEq] at h
      obtain ⟨rfl, rfl⟩ := h
      exact ⟨List.mem_cons_self _ _, fun y hy => List.mem_cons_of_mem _ hy⟩
    | succ n =>
      rw [extractAt] at h
      cases hE : extractAt rest n with
      | none => rw [hE] at h; cases h
      | some pr =>
        obtain ⟨y, rest'⟩ := pr
        rw [hE] at h
        rw [Option.some.injEq, Prod.mk.injEq] at h
        obtain ⟨rfl, rfl⟩ := h
        obtain ⟨hy, hsub⟩ := ih hE
        refine ⟨List.mem_cons_of_mem _ hy, fun z hz => ?_⟩
        rcases List.mem_cons.mp hz with rfl | hz
        · exact List.mem_cons_self _ _
        · exact List.mem_cons_of_mem _ (hsub hz)

theorem shuffleGo_zero (g : StdGen) (l : List Problem) : shuffleGo 0 g l = (l, g) := rfl

theorem shuffleGo_succ_nil (n : Nat) (g : StdGen) : shuffleGo (n + 1) g [] = ([], g) := rfl

theorem shuffleGo_succ_cons (n : Nat) (g : StdGen) (a : Problem) (rest : List Problem) :
    shuffleGo (n + 1) g (a :: rest) =
      (match extractAt (a :: rest) ((stdNext g).1 % (a :: rest).length) with
      | some (x, l') => (x :: (shuffleGo n (stdNext g).2 l').1, (shuffleGo n (stdNext g).2 l').2)
      | none => (a :: rest, g)) := rfl

theorem shuffleGo_mem {n : Nat} : ∀ {g : StdGen} {l : List Problem} {x : Problem},
    x ∈ (shuffleGo n g l).1 → x ∈ l := by
  induction n with
  | zero => intro g l x hx; rw [shuffleGo_zero] at hx; exact hx
  | succ n ih =>
    intro g l x hx
    cases l with
    | nil => rw [shuffleGo_succ_nil] at hx; simp at hx
    | cons a rest =>
      rw [shuffleGo_succ_cons] at hx
      cases hE : extractAt (a :: rest) ((stdNext g).1 % (a :: rest).length) with
      | none =>
        rw [hE] at hx
        exact hx
      | some pr =>
        obtain ⟨y, l'⟩ := pr
        rw [hE] at hx
        simp only [List.mem_cons] at hx
        rcases hx with rfl | hx
        · exact (extractAt_mem hE).1
        · exact (extractAt_mem hE).2 (ih hx)

theorem randShuffle_mem {g : StdGen} {l : List Problem} {x : Problem}
    (h : x ∈ (randShuffle g l).1) : x ∈ l :=
  shuffleGo_mem h

theorem shuffleBuckets_inv {Q : Int → Problem → Prop} :
    ∀ (bs : List (Int × List Problem)) (g : StdGen),
      BucketsInv Q bs → BucketsInv Q (shuffleBuckets g bs).1 := by
  intro bs
  induction bs with
  | nil => intro g h; simp [shuffleBuckets, BucketsInv]
  | cons rp rest ih =>
    intro g h rq hq p hp
    obtain ⟨r, pool⟩ := rp
    rw [shuffleBuckets] at hq
    simp only [List.mem_cons] at hq
    rcases hq with rfl | hq
    · exact h (r, pool) (List.mem_cons_self _ _) p (randShuffle_mem hp)
    · exact ih (randShuffle g pool).2
        (fun rp' hrp' => h rp' (List.mem_cons_of_mem _ hrp')) rq hq p hp

theorem bucketAdd_inv {Q : Int → Problem → Prop} :
    ∀ {bs : List (Int × List Problem)} {r : Int} {p : Problem},
      BucketsInv Q bs → Q r p → BucketsInv Q (bucketAdd bs r p) := by
  intro bs
  induction bs with
  | nil =>
    intro r p _ hp rq hq q hq'
    simp only [bucketAdd, List.mem_singleton] at hq
    subst hq
    simp only [List.mem_singleton] at hq'
    subst hq'
    exact hp
  | cons kv rest ih =>
    intro r p h hp rq hq q hq'
    obtain ⟨k, v⟩ := kv
    rw [bucketAdd] at hq
    by_cases hk : k = r
    · rw [if_pos hk] at hq
      rcases List.mem_cons.mp hq with rfl | hq
      · rcases List.mem_append.mp hq' with hq' | hq'
        · exact h (k, v) (List.mem_cons_self _ _) q hq'
        · rw [List.mem_singleton] at hq'
          subst hq'
          rw [hk]
          exact hp
      · exact h rq (List.mem_cons_of_mem _ hq) q hq'
    · rw [if_neg hk] at hq
      rcases List.mem_cons.mp hq with rfl | hq
      · exact h (k, v) (List.mem_cons_self _ _) q hq'
      · exact ih (fun rp' hrp' => h rp' (List.mem_cons_of_mem _ hrp')) hp rq hq q hq'

theorem foldl_bucketAdd_inv {Q : Int → Problem → Prop} :
    ∀ (l : List Problem) (bs : List (Int × List Problem)),
      (∀ p ∈ l, Q p.rating p) → BucketsInv Q bs →
      BucketsInv Q (l.foldl (fun bs p => bucketAdd bs p.rating p) bs) := by
  intro l
  induction l with
  | nil => intro bs _ h; simpa using h
  | cons p l ih =>
    intro bs hl hb
    rw [List.foldl_cons]
    exact ih _ (fun q hq => hl q (List.mem_cons_of_mem _ hq))
      (bucketAdd_inv hb (hl p (List.mem_cons_self _ _)))

theorem buildBuckets_inv {Q : Int → Problem → Prop} (fresh : List Problem)
    (h : ∀ p ∈ fresh, Q p.rating p) : BucketsInv Q (buildBuckets fresh) :=
  foldl_bucketAdd_inv fresh [] h (by intro rp hrp; simp at hrp)

theorem bucketsGet_inv {Q : Int → Problem → Prop} {bs : List (Int × List Problem)}
    (h : BucketsInv Q bs) (r : Int) : ∀ p ∈ bucketsGet bs r, Q r p := by
  intro p hp
  rw [bucketsGet] at hp
  cases hf : bs.find? (fun rp => decide (rp.1 = r)) with
  | none => rw [hf] at hp; cases hp
  | some rp =>
    rw [hf] at hp
    have hr : rp.1 = r := by simpa using List.find?_some hf
    have := h rp (List.mem_of_find?_eq_some hf) p hp
    rwa [hr] at this

theorem bucketsSet_inv {Q : Int → Problem → Prop} :
    ∀ {bs : List (Int × List Problem)} {r : Int} {pool : List Problem},
      BucketsInv Q bs → (∀ p ∈ pool, Q r p) → BucketsInv Q (bucketsSet bs r pool) := by
  intro bs
  induction bs with
  | nil => intro r pool _ _ rp hrp; simp [bucketsSet] at hrp
  | cons kv rest ih =>
    intro r pool h hpool rq hq q hq'
    obtain ⟨k, v⟩ := kv
    rw [bucketsSet] at hq
    by_cases hk : k = r
    · rw [if_pos hk] at hq
      rcases List.mem_cons.mp hq with rfl | hq
      · rw [hk]
        exact hpool q hq'
      · exact h rq (List.mem_cons_of_mem _ hq) q hq'
    · rw [if_neg hk] at hq
      rcases List.mem_cons.mp hq with rfl | hq
      · exact h (k, v) (List.mem_cons_self _ _) q hq'
      · exact ih (fun rp' hrp' => h rp' (List.mem_cons_of_mem _ hrp')) hpool rq hq q hq'

/-!
## Lemmas about the main selection loop
-/

theorem pickLoop_ok_forall2 {dc dt : Bool} {caps : List (String × Int)}
    {Q : Int → Problem → Prop} :
    ∀ (rs : List Int) (bs : List (Int × List Problem)) (st : SelState)
      (acc picks : List Problem),
      BucketsInv Q bs →
      pickLoop dc dt caps rs bs st acc = .ok picks →
      ∃ l, picks = acc.reverse ++ l ∧ List.Forall₂ (fun r p => Q r p) rs l := by
  intro rs
  induction rs with
  | nil =>
    intro bs st acc picks _ h
    rw [pickLoop, Except.ok.injEq] at h
    exact ⟨[], by rw [← h, List.append_nil], List.Forall₂.nil⟩
  | cons r rs ih =>
    intro bs st acc picks hb h
    rw [pickLoop] at h
    rcases hscan : scanPool dc dt caps st (bucketsGet bs r) with ⟨res, rest⟩
    rw [hscan] at h
    cases res with
    | none => cases h
    | some pr =>
      obtain ⟨chosen, st'⟩ := pr
      have hs := scanPool_some hscan
      have hQ : Q r chosen := bucketsGet_inv hb r chosen hs.1
      have hb' : BucketsInv Q (bucketsSet bs r rest) :=
        bucketsSet_inv hb (fun p hp => bucketsGet_inv hb r p (hs.2.1 hp))
      obtain ⟨l, hl, hf⟩ := ih _ _ _ _ hb' h
      refine ⟨chosen :: l, ?_, List.Forall₂.cons hQ hf⟩
      rw [hl]
      simp

theorem pickLoop_error {dc dt : Bool} {caps : List (String × Int)} :
    ∀ (rs : List Int) (bs : List (Int × List Problem)) (st : SelState)
      (acc : List Problem) {e : SelectionError},
      pickLoop dc dt caps rs bs st acc = .error e →
      e.rating ∈ rs ∧ e.detail = detailList dc dt caps := by
  intro rs
  induction rs with
  | nil => intro bs st acc e h; rw [pickLoop] at h; cases h
  | cons r rs ih =>
    intro bs st acc e h
    rw [pickLoop] at h
    rcases hscan : scanPool dc dt caps st (bucketsGet bs r) with ⟨res, rest⟩
    rw [hscan] at h
    cases res with
    | some pr =>
      obtain ⟨chosen, st'⟩ := pr
      obtain ⟨h1, h2⟩ := ih _ _ _ h
      exact ⟨List.mem_cons_of_mem _ h1, h2⟩
    | none =>
      rw [Except.error.injEq] at h
      subst h
      exact ⟨List.mem_cons_self _ _, rfl⟩

theorem pickLoop_invariants {dc dt : Bool} {caps : List (String × Int)} :
    ∀ (rs : List Int) (bs : List (Int × List Problem)) (st : SelState)
      (acc picks : List Problem),
      st.usedKeys = acc.map keyOf →
      st.usedContests = (if dc = true then acc.map (fun p => p.contestId) else []) →
      (∀ t, st.tagCounts t = countTag acc t) →
      (acc.map keyOf).Nodup →
      (dc = true → (acc.map (fun p => p.contestId)).Nodup) →
      (∀ t c, capGet caps t = some c → (countTag acc t : Int) ≤ c) →
      (dt = true → ∀ t, countTag acc t ≤ 1) →
      pickLoop dc dt caps rs bs st acc = .ok picks →
      (picks.map keyOf).Nodup ∧
      (dc = true → (picks.map (fun p => p.contestId)).Nodup) ∧
      (∀ t c, capGet caps t = some c → (countTag picks t : Int) ≤ c) ∧
      (dt = true → ∀ t, countTag picks t ≤ 1) := by
  intro rs
  induction rs with
  | nil =>
    intro bs st acc picks hk hc hcnt hnk hnc hcap hdt h
    rw [pickLoop, Except.ok.injEq] at h
    subst h
    refine ⟨?_, ?_, ?_, ?_⟩
    · rw [List.map_reverse]
      exact List.nodup_reverse.mpr hnk
    · intro hdc
      rw [List.map_reverse]
      exact List.nodup_reverse.mpr (hnc hdc)
    · intro t c hct
      rw [countTag_reverse]
      exact hcap t c hct
    · intro hdtt t
      rw [countTag_reverse]
      exact hdt hdtt t
  | cons r rs ih =>
    intro bs st acc picks hk hc hcnt hnk hnc hcap hdt h
    rw [pickLoop] at h
    rcases hscan : scanPool dc dt caps st (bucketsGet bs r) with ⟨res, rest⟩
    rw [hscan] at h
    cases res with
    | none => cases h
    | some pr =>
      obtain ⟨chosen, st'⟩ := pr
      obtain ⟨hmem, hsub, hst', hknotin, hcnot, hvio⟩ := scanPool_some hscan
      subst hst'
      rw [hk] at hknotin
      refine ih _ _ (chosen :: acc) picks ?_ ?_ ?_ ?_ ?_ ?_ ?_ h
      · simp [acceptState, hk]
      · cases dc with
        | false => simpa [acceptState] using hc
        | true => simp [acceptState, hc]
      · intro t
        rw [countTag_cons, ← hcnt t]
        simp only [acceptState]
        by_cases ht : t ∈ tagsLower chosen <;> simp [ht]
      · simp only [List.map_cons, List.nodup_cons]
        exact ⟨hknotin, hnk⟩
      · intro hdc
        simp only [List.map_cons, List.nodup_cons]
        have hcnot' := hcnot hdc
        rw [hc, if_pos hdc] at hcnot'
        exact ⟨hcnot', hnc hdc⟩
      · intro t c hct
        rw [countTag_cons]
        by_cases ht : t ∈ tagsLower chosen
        · have hlt := violates_false_cap hvio ht hct
          rw [hcnt t] at hlt
          rw [if_pos ht]
          push_cast
          omega
        · rw [if_neg ht]
          simpa using hcap t c hct
      · intro hdtt t
        rw [countTag_cons]
        by_cases ht : t ∈ tagsLower chosen
        · have h0 := violates_false_dt hvio hdtt ht
          rw [hcnt t] at h0
          rw [if_pos ht, h0]
        · rw [if_neg ht]
          simpa using hdt hdtt t

/-!
## The claims about `pick_strict_order`
-/

theorem forall2_mem_right {R : Int → Problem → Prop} {rs : List Int} {l : List Problem}
    (h : List.Forall₂ R rs l) : ∀ p ∈ l, ∃ r ∈ rs, R r p := by
  induction h with
  | nil => simp
  | cons hR hf ih =>
    intro p hp
    rcases List.mem_cons.mp hp with rfl | hp
    · exact ⟨_, List.mem_cons_self _ _, hR⟩
    · obtain ⟨r, hr, hR'⟩ := ih p hp
      exact ⟨r, List.mem_cons_of_mem _ hr, hR'⟩

theorem forall2_rating_map {rs : List Int} {l : List Problem}
    (h : List.Forall₂ (fun r p => p.rating = r) rs l) :
    l.map (fun p => p.rating) = rs := by
  induction h with
  | nil => rfl
  | cons hR hf ih => simp [ih, hR]

/-- `pick_strict_order` unfolded to its final `pickLoop` call. -/
theorem pick_strict_order_eq (candidates : List Problem)
    (attempted : List (Int × String)) (ratings : List Int) (dc dt : Bool)
    (caps : List (String × Int)) (seed : Option Nat) (g : StdGen) :
    pick_strict_order candidates attempted ratings dc dt caps seed g =
      pickLoop dc dt (sanitizeCaps caps) ratings
        ((shuffleBuckets (seedGen seed g)
          (buildBuckets (candidates.filter (fun p => decide (keyOf p ∉ attempted))))).1)
        initState [] := rfl

/-- C1: for every successful run of `pick_strict_order` the picks satisfy all
three selection invariants simultaneously: pairwise-distinct
`(contestId, index)` keys; pairwise-distinct contest ids when
`distinct_contest` is set; and for every tag `t` capped at `c` by the
(lowercased) `tag_caps` mapping, at most `c` picks carry `t`, while
`distinct_tags` caps every tag at 1. -/
theorem pick_strict_order_invariants (candidates : List Problem)
    (attempted : List (Int × String)) (ratings : List Int) (dc dt : Bool)
    (caps : List (String × Int)) (seed : Option Nat) (g : StdGen) (picks : List Problem)
    (h : pick_strict_order candidates attempted ratings dc dt caps seed g = .ok picks) :
    (picks.map keyOf).Nodup ∧
    (dc = true → (picks.map (fun p => p.contestId)).Nodup) ∧
    (∀ t c, capGet (sanitizeCaps caps) t = some c → (countTag picks t : Int) ≤ c) ∧
    (dt = true → ∀ t, countTag picks t ≤ 1) := by
  rw [pick_strict_order_eq] at h
  refine pickLoop_invariants _ _ _ _ _ rfl ?_ (fun t => rfl) (by simp)
    (fun _ => by simp) ?_ (fun _ t => by simp [countTag]) h
  · cases dc <;> rfl
  · intro t c hct
    have h1 := sanitizeCaps_val_ge_one hct
    have h0 : countTag [] t = 0 := rfl
    rw [h0]
    omega

theorem pick_strict_order_invariants_witness :
    (pick_strict_order [wpA, wpB] [] [800, 900] true true [("dp", 1)] (some 7)
      (mkStdGen 1) = .ok [wpA, wpB]) ∧
    (([wpA, wpB].map keyOf).Nodup ∧
     (true = true → ([wpA, wpB].map (fun p => p.contestId)).Nodup) ∧
     (∀ t c, capGet (sanitizeCaps [("dp", 1)]) t = some c →
        (countTag [wpA, wpB] t : Int) ≤ c) ∧
     (true = true → ∀ t, countTag [wpA, wpB] t ≤ 1)) :=
  ⟨rfl, pick_strict_order_invariants [wpA, wpB] [] [800, 900] true true
    [("dp", 1)] (some 7) (mkStdGen 1) [wpA, wpB] rfl⟩

/-- C2: every problem returned by `pick_strict_order` has a
`(contestId, index)` key outside the attempted set (line 193 filters them
out and every pick comes from the filtered buckets). -/
theorem pick_strict_order_unattempted (candidates : List Problem)
    (attempted : List (Int × String)) (ratings : List Int) (dc dt : Bool)
    (caps : List (String × Int)) (seed : Option Nat) (g : StdGen) (picks : List Problem)
    (h : pick_strict_order candidates attempted ratings dc dt caps seed g = .ok picks) :
    ∀ p ∈ picks, (p.contestId, p.index) ∉ attempted := by
  rw [pick_strict_order_eq] at h
  have hb : BucketsInv (fun _ p => keyOf p ∉ attempted)
      ((shuffleBuckets (seedGen seed g)
        (buildBuckets (candidates.filter (fun p => decide (keyOf p ∉ attempted))))).1) :=
    shuffleBuckets_inv _ _ (buildBuckets_inv _
      (fun p hp => of_decide_eq_true (List.mem_filter.mp hp).2))
  obtain ⟨l, hl, hf⟩ := pickLoop_ok_forall2 _ _ _ _ _ hb h
  intro p hp
  rw [hl] at hp
  simp only [List.reverse_nil, List.nil_append] at hp
  obtain ⟨r, _, hR⟩ := forall2_mem_right hf p hp
  exact hR

theorem pick_strict_order_unattempted_witness :
    (pick_strict_order [wpA, wpC] [(1, "A")] [800] false false [] (some 3)
      (mkStdGen 2) = .ok [wpC]) ∧
    (∀ p ∈ [wpC], (p.contestId, p.index) ∉ [((1 : Int), "A")]) :=
  ⟨rfl, pick_strict_order_unattempted [wpA, wpC] [(1, "A")] [800] false false
    [] (some 3) (mkStdGen 2) [wpC] rfl⟩

/-- C3: with a non-`None` seed the selector is a function of its arguments
only — the ambient generator state `g` (the `random` module state in
Python) is discarded by `random.seed(seed)`, so two runs with identical
candidates, attempted set, ratings and constraints return identical results
(both on success and on failure). -/
theorem pick_strict_order_deterministic (candidates : List Problem)
    (attempted : List (Int × String)) (ratings : List Int) (dc dt : Bool)
    (caps : List (String × Int)) (s : Nat) (g1 g2 : StdGen) :
    pick_strict_order candidates attempted ratings dc dt caps (some s) g1 =
    pick_strict_order candidates attempted ratings dc dt caps (some s) g2 := rfl

/-- C4: whenever `pick_strict_order` fails, the `SelectionError` names a
rating from `ratings_ordered` and lists exactly the names of the active
constraints (lines 234-239); the loop never relaxes the rating. -/
theorem pick_strict_order_failure (candidates : List Problem)
    (attempted : List (Int × String)) (ratings : List Int) (dc dt : Bool)
    (caps : List (String × Int)) (seed : Option Nat) (g : StdGen) (e : SelectionError)
    (h : pick_strict_order candidates attempted ratings dc dt caps seed g = .error e) :
    e.rating ∈ ratings ∧ e.detail = detailList dc dt (sanitizeCaps caps) := by
  rw [pick_strict_order_eq] at h
  exact pickLoop_error _ _ _ _ h

theorem pick_strict_order_failure_witness :
    (pick_strict_order [] [] [1500] true false [] (some 0) (mkStdGen 0) =
      .error ⟨1500, ["distinct contest"]⟩) ∧
    ((1500 : Int) ∈ [(1500 : Int)] ∧
      (⟨1500, ["distinct contest"]⟩ : SelectionError).detail =
        detailList true false (sanitizeCaps [])) :=
  ⟨rfl, pick_strict_order_failure [] [] [1500] true false [] (some 0)
    (mkStdGen 0) ⟨1500, ["distinct contest"]⟩ rfl⟩

/-- C5: a successful run returns exactly one problem per requested rating,
in the same order: the output has the length of `ratings_ordered` and the
`i`-th pick's rating is `ratings_ordered[i]`. -/
theorem pick_strict_order_one_per_rating (candidates : List Problem)
    (attempted : List (Int × String)) (ratings : List Int) (dc dt : Bool)
    (caps : List (String × Int)) (seed : Option Nat) (g : StdGen) (picks : List Problem)
    (h : pick_strict_order candidates attempted ratings dc dt caps seed g = .ok picks) :
    picks.length = ratings.length ∧ picks.map (fun p => p.rating) = ratings := by
  rw [pick_strict_order_eq] at h
  have hb : BucketsInv (fun r p => p.rating = r)
      ((shuffleBuckets (seedGen seed g)
        (buildBuckets (candidates.filter (fun p => decide (keyOf p ∉ attempted))))).1) :=
    shuffleBuckets_inv _ _ (buildBuckets_inv _ (fun p _ => rfl))
  obtain ⟨l, hl, hf⟩ := pickLoop_ok_forall2 _ _ _ _ _ hb h
  rw [hl]
  simp only [List.reverse_nil, List.nil_append]
  have hm := forall2_rating_map hf
  exact ⟨by rw [← hm]; simp, hm⟩

theorem pick_strict_order_one_per_rating_witness :
    (pick_strict_order [wpA, wpC] [] [800, 800] false false [] (some 0)
      (mkStdGen 0) = .ok [wpC, wpA]) ∧
    (([wpC, wpA] : List Problem).length = [(800 : Int), 800].length ∧
      ([wpC, wpA].map (fun p => p.rating)) = [(800 : Int), 800]) :=
  ⟨rfl, pick_strict_order_one_per_rating [wpA, wpC] [] [800, 800] false false
    [] (some 0) (mkStdGen 0) [wpC, wpA] rfl⟩

/-- The sanitizing comprehension of line 191 makes entries with value `< 1`
invisible: filtering them away first changes nothing. -/
theorem sanitizeCaps_filter (caps : List (String × Int)) :
    sanitizeCaps (caps.filter (fun kv => decide (1 ≤ kv.2))) = sanitizeCaps caps := by
  simp [sanitizeCaps, List.filter_filter]

/-- C9: `pick_strict_order` applied to a `tag_caps` mapping containing
entries with value `< 1` does not fail on them: it behaves exactly as if
those entries were absent (no cap enforced for those tags). -/
theorem pick_strict_order_ignores_small_caps (candidates : List Problem)
    (attempted : List (Int × String)) (ratings : List Int) (dc dt : Bool)
    (caps : List (String × Int)) (seed : Option Nat) (g : StdGen) :
    pick_strict_order candidates attempted ratings dc dt caps seed g =
    pick_strict_order candidates attempted ratings dc dt
      (caps.filter (fun kv => decide (1 ≤ kv.2))) seed g := by
  rw [pick_strict_order_eq, pick_strict_order_eq, sanitizeCaps_filter]

/-!
## The claims about `cf_get`
-/

/-- C6 (behaviour at the failing input): a non-transient API error — the
invalid-handle comment, which matches none of the three transient
substrings — does *not* abort `cf_get`: the `raise RuntimeError` of line 74
sits inside the `try` whose `except` clause (line 75) catches
`RuntimeError`, so the loop records it in `last_err` and proceeds to the
next host, whose payload is returned. -/
theorem cf_get_continues_after_nontransient :
    isTransient "handles: User with handle q not found" = false ∧
    cf_get "user.status" ["h1", "h2"] 2 envNonTransient = .ok "PAYLOAD" :=
  ⟨rfl, rfl⟩

/-- C7 counterexample: the body `"<html lang=en>"` does not start with
`"<html>"` (the specification's characterization), yet the code treats it
as HTML: a JSON-parsing response with this body and a non-JSON content type
is rejected as a WAF page instead of being accepted. -/
theorem looks_like_html_spec_mismatch :
    looks_like_html "<html lang=en>" = true ∧
    specLooksLikeHtml "<html lang=en>" = false ∧
    processAttempt "problemset.problems"
      (.response "text/html" "<html lang=en>" (some ⟨"OK", "RESULT", none⟩)) =
      .next (some "Non-JSON HTML from CF (likely WAF/challenge).") :=
  ⟨rfl, rfl, rfl⟩

/-- C7 (amended): a response is accepted — its envelope is consumed — if
and only if its body parses as JSON and either its declared content type
marks it as JSON or its body does not look like an HTML document, where
"looks like HTML" is a leading (whitespace-trimmed, lowercased)
`"<!doctype html"` or `"<html"` — a *prefix* `"<html"`, not the exact tag
`"<html>"`. -/
theorem validateResponse_accepts_iff (ctype body : String) (json : Option Envelope)
    (env1 : Envelope) :
    validateResponse ctype body json = .ok env1 ↔
      (json = some env1 ∧
        (containsSub (lowerStr ctype) "application/json" = true ∨
          looks_like_html body = false)) := by
  cases hc : containsSub (lowerStr ctype) "application/json" <;>
    cases hh : looks_like_html body <;>
      cases json <;>
        simp [validateResponse, hc, hh]

/-!
## The claims about `load_config`
-/

theorem containsSub_eq (s pat : String) : containsSub s pat = containsSub.go pat s.data := rfl

theorem containsSub_go_of_isPrefixOf (pat : String) (l : List Char)
    (hl : pat.data.isPrefixOf l = true) : containsSub.go pat l = true := by
  cases l with
  | nil => rw [containsSub.go]; exact hl
  | cons c rest => rw [containsSub.go]; rw [show pat.toList = pat.data from rfl, hl]; rfl

theorem containsSub_go_append (pat : String) (a : List Char) :
    ∀ l : List Char, containsSub.go pat l = true → containsSub.go pat (a ++ l) = true := by
  induction a with
  | nil => intro l h; exact h
  | cons c rest ih =>
    intro l h
    rw [List.cons_append, containsSub.go, ih l h, Bool.or_true]

/-- A pattern occurring in the middle of a concatenation is found. -/
theorem containsSub_of_middle (a pat b : String) :
    containsSub (a ++ pat ++ b) pat = true := by
  rw [containsSub_eq]
  have hd : (a ++ pat ++ b).data = a.data ++ (pat.data ++ b.data) := by
    rw [String.data_append, String.data_append, List.append_assoc]
  rw [hd]
  apply containsSub_go_append
  apply containsSub_go_of_isPrefixOf
  rw [List.isPrefixOf_iff_prefix]
  exact List.prefix_append _ _

theorem validateTagCaps_rejects :
    ∀ caps : List (String × Option Int),
      (∃ kv ∈ caps, kv.2 = none ∨ ∃ c, kv.2 = some c ∧ c < 1) →
      ∃ e, validateTagCaps caps = .error e ∧ e.code = 2 ∧
        ∃ kv ∈ caps, (kv.2 = none ∨ ∃ c, kv.2 = some c ∧ c < 1) ∧
          containsSub e.msg kv.1 = true := by
  intro caps
  induction caps with
  | nil => rintro ⟨kv, hkv, -⟩; cases hkv
  | cons kv rest ih =>
    intro hex
    obtain ⟨k, v⟩ := kv
    cases v with
    | none =>
      refine ⟨⟨"Config: tag_caps[" ++ k ++ "] must be an integer >= 1.", 2⟩,
        rfl, rfl, (k, none), List.mem_cons_self _ _, Or.inl rfl, ?_⟩
      exact containsSub_of_middle "Config: tag_caps[" k "] must be an integer >= 1."
    | some c =>
      by_cases hc : c < 1
      · refine ⟨⟨"Config: tag_caps[" ++ k ++ "] must be >= 1.", 2⟩,
          ?_, rfl, (k, some c), List.mem_cons_self _ _, Or.inr ⟨c, rfl, hc⟩, ?_⟩
        · rw [validateTagCaps, if_pos hc]
        · exact containsSub_of_middle "Config: tag_caps[" k "] must be >= 1."
      · have hex' : ∃ kv ∈ rest, kv.2 = none ∨ ∃ c, kv.2 = some c ∧ c < 1 := by
          obtain ⟨kv', hmem, hbad⟩ := hex
          rcases List.mem_cons.mp hmem with rfl | hmem
          · exfalso
            rcases hbad with h0 | ⟨c', hc', hlt⟩
            · cases h0
            · rw [Option.some.injEq] at hc'
              subst hc'
              exact hc hlt
          · exact ⟨kv', hmem, hbad⟩
        obtain ⟨e, he, hc2, kv', hmem', hbad', hsub'⟩ := ih hex'
        refine ⟨e, ?_, hc2, kv', List.mem_cons_of_mem _ hmem', hbad', hsub'⟩
        rw [validateTagCaps, if_neg hc, he]

/-- C8: `load_config` rejects any `tag_caps` entry whose value is below 1
or not convertible to an integer, as a fatal configuration error with exit
code 2 whose message names an offending tag — before the selector ever
runs (`main` calls `load_config` first). -/
theorem load_config_rejects_bad_tag_caps (cfg : RawConfig)
    (hh : ¬cfg.handles.isEmpty = true) (hr : ¬cfg.ratings.isEmpty = true)
    (hy : ¬cfg.year_min > cfg.year_max)
    (hbad : ∃ kv ∈ cfg.tag_caps, kv.2 = none ∨ ∃ c, kv.2 = some c ∧ c < 1) :
    ∃ e, load_config cfg = .error e ∧ e.code = 2 ∧
      ∃ kv ∈ cfg.tag_caps, (kv.2 = none ∨ ∃ c, kv.2 = some c ∧ c < 1) ∧
        containsSub e.msg kv.1 = true := by
  obtain ⟨e, he, hc2, hkv⟩ := validateTagCaps_rejects cfg.tag_caps hbad
  refine ⟨e, ?_, hc2, hkv⟩
  rw [load_config, if_neg hh, if_neg hr, if_neg hy, he]

theorem load_config_rejects_bad_tag_caps_witness :
    (¬wcfgBadCap.handles.isEmpty = true) ∧
    (¬wcfgBadCap.ratings.isEmpty = true) ∧
    (¬wcfgBadCap.year_min > wcfgBadCap.year_max) ∧
    (∃ kv ∈ wcfgBadCap.tag_caps, kv.2 = none ∨ ∃ c, kv.2 = some c ∧ c < 1) ∧
    (∃ e, load_config wcfgBadCap = .error e ∧ e.code = 2 ∧
      ∃ kv ∈ wcfgBadCap.tag_caps, (kv.2 = none ∨ ∃ c, kv.2 = some c ∧ c < 1) ∧
        containsSub e.msg kv.1 = true) :=
  ⟨by decide, by decide, by decide,
    ⟨("dp", some 0), List.mem_cons_self _ _, Or.inr ⟨0, rfl, by decide⟩⟩,
    load_config_rejects_bad_tag_caps wcfgBadCap (by decide) (by decide) (by decide)
      ⟨("dp", some 0), List.mem_cons_self _ _, Or.inr ⟨0, rfl, by decide⟩⟩⟩

/-- If every validation passes, `load_config` succeeds. -/
theorem load_config_isOk (cfg : RawConfig)
    (hh : ¬cfg.handles.isEmpty = true) (hr : ¬cfg.ratings.isEmpty = true)
    (hy : ¬cfg.year_min > cfg.year_max)
    (caps : List (String × Int)) (hcaps : validateTagCaps cfg.tag_caps = .ok caps)
    (mpu : Option Int) (hmpu : validateMaxPages cfg.max_pages_per_user = .ok mpu)
    (ids : List Int) (hids : validateExcludeIds cfg.exclude_contest_ids = .ok ids) :
    ∃ out, load_config cfg = .ok out := by
  rw [load_config, if_neg hh, if_neg hr, if_neg hy, hcaps, hmpu, hids]
  exact ⟨_, rfl⟩

/-- C10: `load_config` silently clamps the out-of-range networking numbers
instead of rejecting them — `timeout` to `max(5, ·)`, `min_interval` to
`max(0.0, ·)`, `page_size` into `[100, 1000]` — and no configuration error
depends on those three fields. -/
theorem load_config_clamps (cfg : RawConfig) (out : Config)
    (h : load_config cfg = .ok out) :
    out.timeout = max 5 cfg.timeout ∧
    out.min_interval = max 0 cfg.min_interval ∧
    out.page_size = max 100 (min 1000 cfg.page_size) ∧
    (∀ t m p, ∃ out2,
      load_config
        { cfg with timeout := t, min_interval := m, page_size := p } = .ok out2) := by
  rw [load_config] at h
  split at h
  · cases h
  · split at h
    · cases h
    · split at h
      · cases h
      · split at h
        · cases h
        · split at h
          · cases h
          · split at h
            · cases h
            · rename_i hh hr hy x2 caps hcaps x1 mpu hmpu x0 ids hids
              rw [Except.ok.injEq] at h
              subst h
              refine ⟨rfl, rfl, rfl, ?_⟩
              intro t m p
              exact load_config_isOk _ hh hr hy caps hcaps mpu hmpu ids hids

theorem load_config_clamps_witness :
    (load_config wcfgClamp = .ok
      ⟨["alice"], [800], 2020, 2021, false, false, [], none, false, none,
        0, false, 5, 100, none, none, [], []⟩) ∧
    ((⟨["alice"], [800], 2020, 2021, false, false, [], none, false, none,
        0, false, 5, 100, none, none, [], []⟩ : Config).timeout =
          max 5 wcfgClamp.timeout ∧
     (⟨["alice"], [800], 2020, 2021, false, false, [], none, false, none,
        0, false, 5, 100, none, none, [], []⟩ : Config).min_interval =
          max 0 wcfgClamp.min_interval ∧
     (⟨["alice"], [800], 2020, 2021, false, false, [], none, false, none,
        0, false, 5, 100, none, none, [], []⟩ : Config).page_size =
          max 100 (min 1000 wcfgClamp.page_size) ∧
     (∀ t m p, ∃ out2,
        load_config
          { wcfgClamp with timeout := t, min_interval := m, page_size := p } =
            .ok out2)) :=
  ⟨rfl, load_config_clamps wcfgClamp _ rfl⟩
